import Mathlib

/-!
Shallow embedding of `src/ix/commands/registry.py`: the `Command` descriptor,
the signature renderer `get_function_signature`, the `CommandRegistry`
(register / unregister / get / call / command_prompt / import_commands /
reload_commands / for_tools) and the `command` decorator, together with the
Python runtime facts they rely on (dict insertion-order semantics, `dir()`
sorting, `importlib`, KeyError / RuntimeError behaviour).
-/

namespace IxRegistry

/-- A runtime value passed to or returned from a command implementation.
Only a few concrete shapes are needed to exercise the registry, which treats
values as fully opaque. -/
inductive Value where
  | vInt (n : Int)
  | vStr (s : String)
  | vNone
deriving DecidableEq, Repr

/-- Keyword arguments of a call: a finite map from argument name to value,
modelling Python `**kwargs`. -/
abbrev Kwargs := List (String × Value)

/-- The Python exceptions that the registry code can raise or propagate:
`KeyError` (from `unregister`, `get`, `call`), `ImportError`/`ModuleNotFoundError`
(from `importlib.import_module` / `importlib.reload`), `RuntimeError`
(dictionary changed size during iteration), and arbitrary exceptions raised by
a command implementation itself. -/
inductive PyError where
  | keyError (msg : String)
  | importError (msg : String)
  | runtimeError (msg : String)
  | commandError (msg : String)
deriving DecidableEq, Repr

/-- A Python annotation object as consumed by `get_function_signature`:
either an object exposing a `__name__` attribute (a class, such as `int`,
`str`, or the `inspect._empty` sentinel class), or an object without one,
which the code renders via `str(...)` (e.g. `typing.List[int]`). -/
inductive PyType where
  | cls (n : String)
  | obj (s : String)
deriving DecidableEq, Repr

/-- How the source renders one annotation:
`param.annotation.__name__ if hasattr(param.annotation, '__name__') else str(param.annotation)`. -/
def PyType.render : PyType → String
  | .cls n => n
  | .obj s => s

/-- The annotation of a parameter declared without a type hint:
`inspect.Parameter.empty` is the class `inspect._empty`, which has
`__name__ = "_empty"`. -/
def untypedHint : PyType := PyType.cls "_empty"

/-- One declared parameter of a Python callable, as reported by
`inspect.signature(func).parameters`: its name and its annotation
(`untypedHint` when the parameter carries no type hint). -/
structure Param where
  name : String
  hint : PyType
deriving DecidableEq, Repr

/-- A Python callable: its declared parameters in declaration order, its
return annotation (present on the object but never consulted by
`get_function_signature`), and its runtime behaviour on keyword arguments. -/
structure PyFunc where
  params : List Param
  ret : PyType
  run : Kwargs → Except PyError Value

/-- `get_function_signature(func)`: renders each declared parameter as
`"<name>: <annotation rendering>"` in declaration order and joins with
`", "`; the return annotation is not consulted. -/
def get_function_signature (func : PyFunc) : String :=
  String.intercalate ", "
    (func.params.map (fun p => p.name ++ ": " ++ p.hint.render))

/-- The module in which the `Command` class itself is defined
(`src/ix/commands/registry.py`); `type(obj).__module__` for any instance of
the base `Command` class, wherever it was constructed. -/
def ixRegistryModule : String := "ix.commands.registry"

/-- The `Command` class: name, description, underlying invocable, rendered
signature, plus the `__module__` attribute the instance reports, which Python
resolves through the instance's class (`ixRegistryModule` for base-class
instances, the defining module of the subclass for subclass instances). -/
structure Command where
  name : String
  description : String
  method : PyFunc
  signature : String
  clsModule : String

/-- `Command.__init__` for the base class: stores the fields and computes
`signature if signature else get_function_signature(self.method)` — both
`None` and the empty string are falsy, so either triggers derivation.
The resulting instance has `__module__ = ixRegistryModule`. -/
def Command.make (name description : String) (method : PyFunc)
    (signature : Option String) : Command :=
  { name := name
    description := description
    method := method
    signature :=
      match signature with
      | some s => if s = "" then get_function_signature method else s
      | none => get_function_signature method
    clsModule := ixRegistryModule }

/-- `Command.__call__`: forwards the keyword arguments unchanged to `method`
and returns its result or propagates its failure unchanged. -/
def Command.call (c : Command) (kwargs : Kwargs) : Except PyError Value :=
  c.method.run kwargs

/-- `Command.__str__`: `f"{self.name}({self.signature})"`. -/
def Command.render (c : Command) : String :=
  c.name ++ "(" ++ c.signature ++ ")"

/-! ### Python `dict` model

A Python `dict` is insertion-ordered: assignment to an existing key updates
the value in place (position preserved), assignment to a fresh key appends,
and deletion removes the entry.  We model `self.commands` as an ordered
association list with these semantics. -/

/-- The entries of a Python dict, in insertion order. -/
abbrev Dict := List (String × Command)

/-- `k in d` for a Python dict. -/
def dictContains (d : Dict) (k : String) : Bool :=
  d.any (fun p => p.1 = k)

/-- `d[k]` lookup, as an option (first — and for a real dict only — entry). -/
def dictLookup (d : Dict) (k : String) : Option Command :=
  (d.find? (fun p => p.1 = k)).map (fun p => p.2)

/-- `d[k] = v`: update in place if `k` is present, else append. -/
def dictInsert (d : Dict) (k : String) (v : Command) : Dict :=
  if dictContains d k then
    d.map (fun p => if p.1 = k then (k, v) else p)
  else
    d ++ [(k, v)]

/-- `del d[k]`. -/
def dictDelete (d : Dict) (k : String) : Dict :=
  d.filter (fun p => ¬ p.1 = k)

/-- The message of the `KeyError` raised by `unregister` and `call`:
`f"Command '{name}' not found in registry."`. -/
def notFoundMsg (name : String) : String :=
  "Command \x27" ++ name ++ "\x27 not found in registry."

/-- The `CommandRegistry` class: its sole state is the `commands` dict. -/
structure CommandRegistry where
  commands : Dict

/-- `CommandRegistry()`: starts with an empty dict. -/
def CommandRegistry.empty : CommandRegistry := ⟨[]⟩

/-- `register(cmd)`: `self.commands[cmd.name] = cmd`. -/
def CommandRegistry.register (r : CommandRegistry) (cmd : Command) :
    CommandRegistry :=
  ⟨dictInsert r.commands cmd.name cmd⟩

/-- `unregister(command_name)`: deletes the entry when present, otherwise
raises `KeyError(f"Command '{command_name}' not found in registry.")`. -/
def CommandRegistry.unregister (r : CommandRegistry) (name : String) :
    Except PyError CommandRegistry :=
  if dictContains r.commands name then
    Except.ok ⟨dictDelete r.commands name⟩
  else
    Except.error (PyError.keyError (notFoundMsg name))

/-- `get(name)`: `return self.commands[name]`; a missing key raises
`KeyError(name)` (the dict's own error, whose argument is the key). -/
def CommandRegistry.get (r : CommandRegistry) (name : String) :
    Except PyError Command :=
  match dictLookup r.commands name with
  | some c => Except.ok c
  | none => Except.error (PyError.keyError name)

/-- `call(command_name, **kwargs)`: raises
`KeyError(f"Command '{command_name}' not found in registry.")` when the name
is absent, otherwise invokes the stored command with the keyword arguments. -/
def CommandRegistry.call (r : CommandRegistry) (name : String)
    (kwargs : Kwargs) : Except PyError Value :=
  if dictContains r.commands name then
    match dictLookup r.commands name with
    | some c => c.call kwargs
    | none => Except.error (PyError.keyError (notFoundMsg name))
  else
    Except.error (PyError.keyError (notFoundMsg name))

/-- Code-point lexicographic comparison on character lists: the order Python
uses to compare `str` values (and the order Lean's `String` instances denote),
written structurally so it evaluates. -/
def lexLe : List Char → List Char → Bool
  | [], _ => true
  | _ :: _, [] => false
  | a :: as, b :: bs =>
      if a < b then true else if b < a then false else lexLe as bs

/-- Python `s1 <= s2` on strings: code-point lexicographic, case-sensitive. -/
def strLe (a b : String) : Bool := lexLe a.data b.data

/-- The `key=lambda cmd: cmd.name` comparison used by
`commands.sort(...)` in `command_prompt`. -/
def cmdNameLe (a b : Command) : Prop := strLe a.name b.name = true

instance : DecidableRel cmdNameLe := fun a b => by
  unfold cmdNameLe; infer_instance

/-- `command_prompt()`: lists the dict's values, sorts them by `name`
(Python's `list.sort` with a key — any stable comparison sort; names are
unique keys so the result is determined), and joins
`f"{idx + 1}. {str(cmd)}"` lines with a newline. -/
def CommandRegistry.command_prompt (r : CommandRegistry) : String :=
  let cmds := List.insertionSort cmdNameLe (r.commands.map (fun p => p.2))
  String.intercalate "\n"
    (cmds.enum.map (fun p => toString (p.1 + 1) ++ ". " ++ p.2.render))

/-! ### Modules, the loader, discovery, reload -/

/-- One attribute of a loaded module, as seen by `import_commands`:
a callable carrying the `ix_command` flag (with its attached `command`
object), a class that is a strict subclass of `Command` (instantiating it
with no arguments yields the given instance, whose `__module__` is the
subclass's defining module), or any other member, which is ignored. -/
inductive Member where
  | marked (flag : Bool) (cmd : Command)
  | commandClass (inst : Command)
  | plain

/-- A loaded Python module: its attributes (name → member) and, when the
module defines a top-level `register(registry)` function, the list of
commands that function registers, in order, when invoked with a registry. -/
structure PyModule where
  members : List (String × Member)
  registerEntry : Option (List Command)

/-- The `importlib` capability the registry consumes:
`resolve` models `importlib.import_module` and `reloadModule` models
`importlib.reload` (returning the re-executed module). -/
structure Loader where
  resolve : String → Except PyError PyModule
  reloadModule : PyModule → Except PyError PyModule

/-- `dir(module)` returns the attribute names sorted; iterate the members in
that order. -/
def dirSorted (ms : List (String × Member)) : List (String × Member) :=
  List.insertionSort (fun a b : String × Member => strLe a.1 b.1 = true) ms

/-- The body of the `import_commands` loop for one attribute: register the
attached command of a member whose `ix_command` attribute is `True`,
instantiate and register a strict `Command` subclass, skip everything else. -/
def discoverStep (r : CommandRegistry) : Member → CommandRegistry
  | .marked true cmd => r.register cmd
  | .marked false _ => r
  | .commandClass inst => r.register inst
  | .plain => r

/-- `import_commands(module_name)`: imports the module (an `ImportError`
propagates) and folds `discoverStep` over its members in `dir` order. -/
def CommandRegistry.import_commands (L : Loader) (r : CommandRegistry)
    (moduleName : String) : Except PyError CommandRegistry :=
  match L.resolve moduleName with
  | Except.error e => Except.error e
  | Except.ok m =>
      Except.ok ((dirSorted m.members).foldl (fun acc p => discoverStep acc p.2) r)

/-- The loop of `for_tools`: runs `import_commands` once per listed name, in
order, on the mutable registry; stops at the first failure, returning the
registry as mutated so far together with the error. -/
def importList (L : Loader) (r : CommandRegistry) :
    List String → CommandRegistry × Option PyError
  | [] => (r, none)
  | n :: rest =>
      match r.import_commands L n with
      | Except.ok r2 => importList L r2 rest
      | Except.error e => (r, some e)

/-- `CommandRegistry.for_tools(tools)`: builds an empty registry, imports
each listed module in order (`tools or []` treats `None` and the empty list
alike), and returns the populated registry; a failing import propagates. -/
def CommandRegistry.for_tools (L : Loader) (tools : Option (List String)) :
    Except PyError CommandRegistry :=
  let names := match tools with | some l => l | none => []
  match importList L CommandRegistry.empty names with
  | (r, none) => Except.ok r
  | (_, some e) => Except.error e

/-- The effect of `reloaded_module.register(self)` when the module exposes a
`register` entry point: each of the listed commands is registered in order;
a module without the entry point leaves the registry untouched. -/
def applyRegisterEntry (m : PyModule) (r : CommandRegistry) : CommandRegistry :=
  match m.registerEntry with
  | some cmds => cmds.foldl (fun acc c => acc.register c) r
  | none => r

/-- The `for cmd_name in self.commands` loop of `reload_commands`, iterating
over the LIVE dict by entry position.  Each `next()` of a CPython dict
iterator first compares the dict's current size with its size at iterator
creation and raises `RuntimeError("dictionary changed size during
iteration")` on mismatch, then yields the entry at the next position or
stops.  The body re-imports `cmd.__module__`, reloads it, and invokes its
`register` entry point when present. -/
def reloadLoop (L : Loader) (origSize : Nat) (r : CommandRegistry)
    (pos : Nat) : Except PyError CommandRegistry :=
  if _hsz : r.commands.length = origSize then
    if hpos : pos < r.commands.length then
      match L.resolve (r.commands.get ⟨pos, hpos⟩).2.clsModule with
      | Except.error e => Except.error e
      | Except.ok m =>
          match L.reloadModule m with
          | Except.error e => Except.error e
          | Except.ok m2 => reloadLoop L origSize (applyRegisterEntry m2 r) (pos + 1)
    else
      Except.ok r
  else
    Except.error (PyError.runtimeError "dictionary changed size during iteration")
termination_by origSize - pos
decreasing_by
  omega

/-- `reload_commands()`: iterates over the live `commands` dict; for each
entry, imports the module named by the command object's `__module__`
attribute, reloads it, and calls its `register(self)` entry point if the
reloaded module has one. -/
def CommandRegistry.reload_commands (L : Loader) (r : CommandRegistry) :
    Except PyError CommandRegistry :=
  reloadLoop L r.commands.length r 0

/-- The `command(name, description, signature)` decorator applied to `func`:
the wrapper behaves like `func`, carries `ix_command = True`, and has a
`Command` built with `Command.__init__` attached — as a module member this
is exactly a marked member holding that command (the command instance is of
the base `Command` class, so its `__module__` is `ixRegistryModule`). -/
def command (name description : String) (signature : Option String)
    (func : PyFunc) : Member :=
  Member.marked true (Command.make name description func signature)


/-! ### Facts about the dict model -/

/-- Key membership as list membership of the key list. -/
lemma dictContains_iff {d : Dict} {k : String} :
    dictContains d k = true ↔ k ∈ d.map Prod.fst := by
  simp only [dictContains, List.any_eq_true, List.mem_map, decide_eq_true_eq]

/-- A key absent from the dict heads no entry. -/
lemma dictContains_false {d : Dict} {k : String}
    (h : dictContains d k = false) : ∀ p ∈ d, p.1 ≠ k := by
  intro p hp he
  have : dictContains d k = true :=
    dictContains_iff.mpr (he ▸ List.mem_map_of_mem Prod.fst hp)
  rw [this] at h
  cases h

/-- The in-place update of `dictInsert` changes no key. -/
lemma keys_update (d : Dict) (k : String) (v : Command) :
    (d.map (fun p => if p.1 = k then (k, v) else p)).map Prod.fst =
      d.map Prod.fst := by
  rw [List.map_map]
  refine List.map_congr_left ?_
  intro p _
  by_cases h : p.1 = k <;> simp [Function.comp, h]

/-- Unfolding `dictInsert` when the key is already present. -/
lemma dictInsert_eq_update (d : Dict) (k : String) (v : Command)
    (h : dictContains d k = true) :
    dictInsert d k v = d.map (fun p => if p.1 = k then (k, v) else p) := by
  unfold dictInsert
  simp [h]

/-- Unfolding `dictInsert` when the key is fresh. -/
lemma dictInsert_eq_append (d : Dict) (k : String) (v : Command)
    (h : dictContains d k = false) :
    dictInsert d k v = d ++ [(k, v)] := by
  unfold dictInsert
  simp [h]

/-- Key list after `dictInsert`: unchanged on overwrite, appended otherwise. -/
lemma keys_insert (d : Dict) (k : String) (v : Command) :
    (dictInsert d k v).map Prod.fst =
      if dictContains d k then d.map Prod.fst else d.map Prod.fst ++ [k] := by
  by_cases h : dictContains d k
  · rw [dictInsert_eq_update d k v h, keys_update]
    simp [h]
  · rw [dictInsert_eq_append d k v (by simpa using h)]
    simp [h]

/-- `dictInsert` always leaves its key present. -/
lemma dictContains_insert_self (d : Dict) (k : String) (v : Command) :
    dictContains (dictInsert d k v) k = true := by
  rw [dictContains_iff, keys_insert]
  by_cases h : dictContains d k
  · simp only [h, if_true]
    exact dictContains_iff.mp h
  · simp [h]

/-- Length after `dictInsert`. -/
lemma length_insert (d : Dict) (k : String) (v : Command) :
    (dictInsert d k v).length =
      if dictContains d k then d.length else d.length + 1 := by
  by_cases h : dictContains d k
  · rw [dictInsert_eq_update d k v h]
    simp [h]
  · rw [dictInsert_eq_append d k v (by simpa using h)]
    simp [h]

/-- Key distinctness is preserved by `dictInsert`. -/
lemma nodup_insert {d : Dict} (k : String) (v : Command)
    (h : (d.map Prod.fst).Nodup) :
    ((dictInsert d k v).map Prod.fst).Nodup := by
  rw [keys_insert]
  by_cases hc : dictContains d k
  · simpa [hc]
  · have hk : k ∉ d.map Prod.fst := fun hmem => by
      rw [dictContains_iff.mpr hmem] at hc
      exact hc rfl
    simp [hc, List.nodup_append, h, List.disjoint_singleton, hk]

/-- `find?` by a key different from the updated one is untouched. -/
lemma find?_update_ne (d : Dict) (k : String) (v : Command) {n : String}
    (h : n ≠ k) :
    (d.map (fun p => if p.1 = k then (k, v) else p)).find?
        (fun p => p.1 = n) =
      d.find? (fun p => p.1 = n) := by
  induction d with
  | nil => rfl
  | cons p rest ih =>
      rw [List.map_cons]
      by_cases hp : p.1 = k
      · have h1 : (if p.1 = k then (k, v) else p) = (k, v) := by simp [hp]
        rw [h1, List.find?_cons_of_neg _ (by simp; exact fun he => h he.symm),
          List.find?_cons_of_neg _ (by simp [hp]; exact fun he => h he.symm)]
        exact ih
      · have h1 : (if p.1 = k then (k, v) else p) = p := by simp [hp]
        rw [h1]
        by_cases hn : p.1 = n
        · rw [List.find?_cons_of_pos _ (by simp [hn]),
            List.find?_cons_of_pos _ (by simp [hn])]
        · rw [List.find?_cons_of_neg _ (by simp [hn]),
            List.find?_cons_of_neg _ (by simp [hn])]
          exact ih

/-- `find?` on the updated key finds the new value when the key was present. -/
lemma find?_update_self (d : Dict) (k : String) (v : Command)
    (hc : dictContains d k = true) :
    (d.map (fun p => if p.1 = k then (k, v) else p)).find?
        (fun p => p.1 = k) = some (k, v) := by
  induction d with
  | nil => simp [dictContains] at hc
  | cons p rest ih =>
      rw [List.map_cons]
      by_cases hp : p.1 = k
      · have h1 : (if p.1 = k then (k, v) else p) = (k, v) := by simp [hp]
        rw [h1, List.find?_cons_of_pos _ (by simp)]
      · have h1 : (if p.1 = k then (k, v) else p) = p := by simp [hp]
        have hc2 : dictContains rest k = true := by
          have h0 := hc
          simp only [dictContains, List.any_cons, Bool.or_eq_true,
            decide_eq_true_eq] at h0
          rcases h0 with h2 | h2
          · exact absurd h2 hp
          · exact h2
        rw [h1, List.find?_cons_of_neg _ (by simp [hp])]
        exact ih hc2

/-- Lookup after `dictInsert`: the inserted key maps to the new value, every
other key is untouched. -/
lemma dictLookup_insert (d : Dict) (k : String) (v : Command) (n : String) :
    dictLookup (dictInsert d k v) n =
      if n = k then some v else dictLookup d n := by
  by_cases hc : dictContains d k
  · rw [dictInsert_eq_update d k v hc]
    unfold dictLookup
    by_cases hn : n = k
    · subst hn
      rw [find?_update_self d n v hc]
      simp
    · rw [find?_update_ne d k v hn]
      simp [hn]
  · have hcf : dictContains d k = false := by simpa using hc
    rw [dictInsert_eq_append d k v hcf]
    unfold dictLookup
    rw [List.find?_append]
    by_cases hn : n = k
    · subst hn
      have hnone : d.find? (fun p => p.1 = n) = none := by
        rw [List.find?_eq_none]
        intro p hp
        simp [dictContains_false hcf p hp]
      rw [hnone, List.find?_cons_of_pos _ (by simp)]
      simp
    · have hone : List.find? (fun p => p.1 = n) [(k, v)] = none := by
        rw [List.find?_eq_none]
        intro p hp
        simp only [List.mem_singleton] at hp
        subst hp
        simp only [decide_eq_true_eq]
        exact fun he => hn he.symm
      rw [hone]
      simp [hn]

/-- A dict with distinct keys holds exactly one entry for a present key. -/
lemma countP_key_eq_one {d : Dict} {n : String}
    (hnd : (d.map Prod.fst).Nodup) (hc : dictContains d n = true) :
    d.countP (fun p => p.1 = n) = 1 := by
  induction d with
  | nil => simp [dictContains] at hc
  | cons p rest ih =>
      rw [List.map_cons, List.nodup_cons] at hnd
      by_cases hp : p.1 = n
      · have hzero : rest.countP (fun q => q.1 = n) = 0 := by
          rw [List.countP_eq_zero]
          intro q hq
          simp only [decide_eq_true_eq]
          intro he
          apply hnd.1
          rw [hp, ← he]
          exact List.mem_map_of_mem Prod.fst hq
        rw [List.countP_cons_of_pos _ _ (by simpa using hp), hzero]
      · have hc2 : dictContains rest n = true := by
          have h0 := hc
          simp only [dictContains, List.any_cons, Bool.or_eq_true,
            decide_eq_true_eq] at h0
          rcases h0 with h2 | h2
          · exact absurd h2 hp
          · exact h2
        rw [List.countP_cons_of_neg _ _ (by simpa using hp)]
        exact ih hnd.2 hc2

/-- Entry count for the inserted key after `dictInsert` with distinct keys. -/
lemma countP_insert_eq_one {d : Dict} (k : String) (v : Command)
    (hnd : (d.map Prod.fst).Nodup) :
    (dictInsert d k v).countP (fun p => p.1 = k) = 1 :=
  countP_key_eq_one (nodup_insert k v hnd) (dictContains_insert_self d k v)


/-- Deleting a key empties its lookups. -/
lemma dictLookup_delete_self (d : Dict) (k : String) :
    dictLookup (dictDelete d k) k = none := by
  unfold dictLookup dictDelete
  have h : (d.filter (fun p => ¬ p.1 = k)).find? (fun p => p.1 = k) = none := by
    rw [List.find?_eq_none]
    intro p hp
    have := List.of_mem_filter hp
    simpa using this
  rw [h]
  rfl

/-- Deleting one key leaves every other lookup untouched. -/
lemma dictLookup_delete_ne (d : Dict) (k : String) {n : String} (h : n ≠ k) :
    dictLookup (dictDelete d k) n = dictLookup d n := by
  unfold dictLookup dictDelete
  induction d with
  | nil => rfl
  | cons p rest ih =>
      by_cases hp : p.1 = k
      · have hpn : ¬ p.1 = n := by rw [hp]; exact fun he => h he.symm
        rw [List.filter_cons_of_neg (by simp [hp]),
          List.find?_cons_of_neg _ (by simp [hpn])]
        exact ih
      · rw [List.filter_cons_of_pos (by simp [hp])]
        by_cases hn : p.1 = n
        · rw [List.find?_cons_of_pos _ (by simp [hn]),
            List.find?_cons_of_pos _ (by simp [hn])]
        · rw [List.find?_cons_of_neg _ (by simp [hn]),
            List.find?_cons_of_neg _ (by simp [hn])]
          exact ih


/-- Inserting twice under the same key collapses to the last insert. -/
lemma dictInsert_insert (d : Dict) (k : String) (v1 v2 : Command) :
    dictInsert (dictInsert d k v1) k v2 = dictInsert d k v2 := by
  by_cases hc : dictContains d k
  · have hc1 : dictContains
        (d.map (fun p => if p.1 = k then (k, v1) else p)) k = true := by
      rw [dictContains_iff, keys_update]
      exact dictContains_iff.mp hc
    rw [dictInsert_eq_update d k v1 hc]
    rw [dictInsert_eq_update _ k v2 hc1]
    rw [dictInsert_eq_update d k v2 hc]
    rw [List.map_map]
    refine List.map_congr_left ?_
    intro p _
    by_cases h : p.1 = k <;> simp [Function.comp, h]
  · have hcf : dictContains d k = false := by simpa using hc
    have habs := dictContains_false hcf
    have hc1 : dictContains (d ++ [(k, v1)]) k = true := by
      rw [dictContains_iff, List.map_append]
      simp
    rw [dictInsert_eq_append d k v1 hcf]
    rw [dictInsert_eq_update _ k v2 hc1]
    rw [dictInsert_eq_append d k v2 hcf]
    rw [List.map_append]
    have h1 : d.map (fun p => if p.1 = k then (k, v2) else p) = d := by
      have h0 : d.map (fun p => if p.1 = k then (k, v2) else p) = d.map id := by
        refine List.map_congr_left ?_
        intro p hp
        simp [habs p hp]
      simpa using h0
    rw [h1]
    simp

/-- Length after deleting a present key from a dict with distinct keys. -/
lemma length_delete {d : Dict} {k : String}
    (hnd : (d.map Prod.fst).Nodup) (hc : dictContains d k = true) :
    (dictDelete d k).length + 1 = d.length := by
  unfold dictDelete
  have h1 := List.length_eq_countP_add_countP (fun p => decide (p.1 = k)) d
  have h2 : d.countP (fun p => decide (p.1 = k)) = 1 :=
    countP_key_eq_one hnd hc
  have h3 : (d.filter (fun p => ¬ p.1 = k)).length =
      d.countP (fun p => ¬ p.1 = k) :=
    (List.countP_eq_length_filter _ _).symm
  have h4 : d.countP (fun a => decide (¬ (decide (a.1 = k)) = true)) =
      d.countP (fun p => ¬ p.1 = k) := by
    refine List.countP_congr ?_
    intro x _
    simp
  omega

/-! ### Registry invariants and auxiliary constructions -/

/-- The data-model invariant: every key of the `commands` dict equals the
`name` of the `Command` it maps to. -/
def KeysMatch (r : CommandRegistry) : Prop :=
  ∀ p ∈ r.commands, p.1 = p.2.name

/-- Distinctness of the dict's keys (true of every real Python dict). -/
def NodupKeys (r : CommandRegistry) : Prop :=
  (r.commands.map Prod.fst).Nodup

instance (r : CommandRegistry) : Decidable (KeysMatch r) := by
  unfold KeysMatch
  infer_instance

instance (r : CommandRegistry) : Decidable (NodupKeys r) := by
  unfold NodupKeys
  infer_instance

/-- The same registry with every stored command's underlying implementation
replaced (names, descriptions, signatures untouched); used to state that an
operation invokes no stored implementation. -/
def CommandRegistry.withMethods (g : String → PyFunc) (r : CommandRegistry) :
    CommandRegistry :=
  ⟨r.commands.map (fun p => (p.1, { p.2 with method := g p.1 }))⟩

/-- Replacing implementations changes no key. -/
lemma withMethods_keys (g : String → PyFunc) (r : CommandRegistry) :
    (r.withMethods g).commands.map Prod.fst = r.commands.map Prod.fst := by
  unfold CommandRegistry.withMethods
  rw [List.map_map]
  refine List.map_congr_left ?_
  intro p _
  rfl

/-! ### C3: register overwrite semantics -/

/-- C3: registering `c1` and then `c2` under the same name leaves exactly one
entry for that name, `get` returns `c2`, and the state equals the one
obtained by registering `c2` alone into the pre-`c1` registry. -/
theorem register_overwrite_last_wins (r : CommandRegistry) (c1 c2 : Command)
    (hnd : NodupKeys r) (hname : c1.name = c2.name) :
    ((r.register c1).register c2).commands.countP
        (fun p => p.1 = c2.name) = 1 ∧
    ((r.register c1).register c2).get c2.name = Except.ok c2 ∧
    (r.register c1).register c2 = r.register c2 := by
  have h3 : (r.register c1).register c2 = r.register c2 := by
    unfold CommandRegistry.register
    rw [hname, dictInsert_insert]
  refine ⟨?_, ?_, h3⟩
  · rw [h3]
    unfold CommandRegistry.register
    exact countP_insert_eq_one c2.name c2 hnd
  · rw [h3]
    unfold CommandRegistry.get CommandRegistry.register
    rw [dictLookup_insert]
    simp

/-! ### C4: unregister semantics -/

/-- C4: `unregister` of an absent name raises `KeyError`; `unregister` of a
present name removes exactly that entry, after which `get` on the name
raises `KeyError` as well. -/
theorem unregister_semantics (r : CommandRegistry) (n : String)
    (hnd : NodupKeys r) :
    (dictContains r.commands n = false →
      r.unregister n = Except.error (PyError.keyError (notFoundMsg n))) ∧
    (dictContains r.commands n = true →
      ∃ r2, r.unregister n = Except.ok r2 ∧
        r2.get n = Except.error (PyError.keyError n) ∧
        (∀ m, m ≠ n → dictLookup r2.commands m = dictLookup r.commands m) ∧
        r2.commands.length + 1 = r.commands.length) := by
  constructor
  · intro hc
    unfold CommandRegistry.unregister
    simp [hc]
  · intro hc
    refine ⟨⟨dictDelete r.commands n⟩, ?_, ?_, ?_, ?_⟩
    · unfold CommandRegistry.unregister
      simp [hc]
    · unfold CommandRegistry.get
      rw [dictLookup_delete_self]
    · intro m hm
      exact dictLookup_delete_ne r.commands n hm
    · exact length_delete hnd hc

/-- C4 witness: on a one-command registry, unregistering the present name
removes it and a second unregister or get fails. -/
theorem unregister_semantics_witness :
    NodupKeys ⟨[("a", Command.make "a" "d" ⟨[], untypedHint, fun _ => Except.ok Value.vNone⟩ none)]⟩ ∧
    ((dictContains [("a", Command.make "a" "d" ⟨[], untypedHint, fun _ => Except.ok Value.vNone⟩ none)] "a" = false →
      CommandRegistry.unregister ⟨[("a", Command.make "a" "d" ⟨[], untypedHint, fun _ => Except.ok Value.vNone⟩ none)]⟩ "a" =
        Except.error (PyError.keyError (notFoundMsg "a"))) ∧
    (dictContains [("a", Command.make "a" "d" ⟨[], untypedHint, fun _ => Except.ok Value.vNone⟩ none)] "a" = true →
      ∃ r2, CommandRegistry.unregister ⟨[("a", Command.make "a" "d" ⟨[], untypedHint, fun _ => Except.ok Value.vNone⟩ none)]⟩ "a" = Except.ok r2 ∧
        r2.get "a" = Except.error (PyError.keyError "a") ∧
        (∀ m, m ≠ "a" → dictLookup r2.commands m =
          dictLookup [("a", Command.make "a" "d" ⟨[], untypedHint, fun _ => Except.ok Value.vNone⟩ none)] m) ∧
        r2.commands.length + 1 =
          List.length [("a", Command.make "a" "d" ⟨[], untypedHint, fun _ => Except.ok Value.vNone⟩ none)])) :=
  ⟨by decide, unregister_semantics _ "a" (by decide)⟩

/-! ### C5: call on a missing name -/

/-- C5: `call` on an absent name raises `KeyError` with the registry's
not-found message, and the outcome is independent of every stored command's
implementation — no implementation is invoked. -/
theorem call_missing_keyError (r : CommandRegistry) (name : String)
    (kwargs : Kwargs) (h : dictContains r.commands name = false) :
    r.call name kwargs = Except.error (PyError.keyError (notFoundMsg name)) ∧
    ∀ g : String → PyFunc,
      (r.withMethods g).call name kwargs =
        Except.error (PyError.keyError (notFoundMsg name)) := by
  constructor
  · unfold CommandRegistry.call
    simp [h]
  · intro g
    have hk : dictContains (r.withMethods g).commands name = false := by
      by_cases h2 : dictContains (r.withMethods g).commands name
      · rw [dictContains_iff, withMethods_keys, ← dictContains_iff, h] at h2
        cases h2
      · simpa using h2
    unfold CommandRegistry.call
    simp [hk]

/-- C5 witness: calling a missing name on a one-command registry fails with
`KeyError` whatever the stored implementation is. -/
theorem call_missing_keyError_witness :
    dictContains [("a", Command.make "a" "d" ⟨[], untypedHint, fun _ => Except.ok Value.vNone⟩ none)] "missing" = false ∧
    CommandRegistry.call ⟨[("a", Command.make "a" "d" ⟨[], untypedHint, fun _ => Except.ok Value.vNone⟩ none)]⟩ "missing" [] =
      Except.error (PyError.keyError (notFoundMsg "missing")) ∧
    (CommandRegistry.withMethods (fun _ => ⟨[], untypedHint, fun _ => Except.error (PyError.commandError "boom")⟩)
        ⟨[("a", Command.make "a" "d" ⟨[], untypedHint, fun _ => Except.ok Value.vNone⟩ none)]⟩).call "missing" [] =
      Except.error (PyError.keyError (notFoundMsg "missing")) :=
  ⟨by decide,
    (call_missing_keyError ⟨[("a", Command.make "a" "d" ⟨[], untypedHint, fun _ => Except.ok Value.vNone⟩ none)]⟩ "missing" [] (by decide)).1,
    (call_missing_keyError ⟨[("a", Command.make "a" "d" ⟨[], untypedHint, fun _ => Except.ok Value.vNone⟩ none)]⟩ "missing" [] (by decide)).2
      (fun _ => ⟨[], untypedHint, fun _ => Except.error (PyError.commandError "boom")⟩)⟩

/-! ### C6: register/call round trip -/

/-- C6: after registering a command, calling it by name with any keyword
arguments returns exactly what the underlying implementation returns for
those arguments — successes and failures alike pass through unchanged. -/
theorem register_call_roundtrip (r : CommandRegistry) (c : Command)
    (kwargs : Kwargs) :
    (r.register c).call c.name kwargs = c.method.run kwargs := by
  unfold CommandRegistry.call CommandRegistry.register
  have h1 : dictContains (dictInsert r.commands c.name c) c.name = true :=
    dictContains_insert_self r.commands c.name c
  have h2 : dictLookup (dictInsert r.commands c.name c) c.name = some c := by
    rw [dictLookup_insert]
    simp
  simp only [h1, if_true, h2]
  rfl

/-! ### Order facts for the prompt listing -/

/-- `lexLe` is transitive. -/
lemma lexLe_trans : ∀ a b c, lexLe a b = true → lexLe b c = true →
    lexLe a c = true
  | [], _, _, _, _ => rfl
  | _ :: _, [], _, hab, _ => by simp [lexLe] at hab
  | _ :: _, _ :: _, [], _, hbc => by simp [lexLe] at hbc
  | x :: xs, y :: ys, z :: zs, hab, hbc => by
      simp only [lexLe] at hab hbc ⊢
      by_cases hxy : x < y
      · by_cases hyz : y < z
        · simp [lt_trans hxy hyz]
        · by_cases hzy : z < y
          · rw [if_neg hyz, if_pos hzy] at hbc
            cases hbc
          · have he : y = z := le_antisymm (not_lt.mp hzy) (not_lt.mp hyz)
            subst he
            simp [hxy]
      · by_cases hyx : y < x
        · rw [if_neg hxy, if_pos hyx] at hab
          cases hab
        · have he : x = y := le_antisymm (not_lt.mp hyx) (not_lt.mp hxy)
          subst he
          rw [if_neg hxy, if_neg hyx] at hab
          by_cases hyz : x < z
          · simp [hyz]
          · by_cases hzy : z < x
            · rw [if_neg hyz, if_pos hzy] at hbc
              cases hbc
            · rw [if_neg hyz, if_neg hzy] at hbc ⊢
              exact lexLe_trans xs ys zs hab hbc

/-- `lexLe` is total. -/
lemma lexLe_total : ∀ a b, lexLe a b = true ∨ lexLe b a = true
  | [], _ => Or.inl rfl
  | _ :: _, [] => Or.inr rfl
  | x :: xs, y :: ys => by
      simp only [lexLe]
      by_cases hxy : x < y
      · simp [hxy]
      · by_cases hyx : y < x
        · simp [hyx]
        · rw [if_neg hxy, if_neg hyx, if_neg hyx, if_neg hxy]
          exact lexLe_total xs ys

instance : IsTrans Command cmdNameLe :=
  ⟨fun a b c hab hbc => lexLe_trans a.name.data b.name.data c.name.data hab hbc⟩

instance : IsTotal Command cmdNameLe :=
  ⟨fun a b => lexLe_total a.name.data b.name.data⟩

/-! ### C7: the prompt listing -/

/-- A one-parameter implementation `def f(x: int)` used by concrete
examples. -/
def fIntX : PyFunc :=
  ⟨[⟨"x", PyType.cls "int"⟩], untypedHint, fun _ => Except.ok Value.vNone⟩

/-- A registry populated with commands named `"b"`, `"a"`, `"c"`, registered
in that order. -/
def regBAC : CommandRegistry :=
  ⟨[("b", Command.make "b" "db" fIntX none),
    ("a", Command.make "a" "da" fIntX none),
    ("c", Command.make "c" "dc" fIntX none)]⟩

/-- C7: `command_prompt` renders the registered commands sorted strictly by
name (case-sensitive code-point order), one line per command, each line the
1-indexed prefix followed by `name(signature)`, joined by newlines; in
particular the `"b"`, `"a"`, `"c"` registry yields exactly three lines in
alphabetical order. -/
theorem command_prompt_listing :
    (∀ r : CommandRegistry, KeysMatch r → NodupKeys r →
      ∃ cs : List Command,
        cs.Perm (r.commands.map Prod.snd) ∧
        List.Pairwise
          (fun a b : Command =>
            strLe a.name b.name = true ∧ a.name ≠ b.name) cs ∧
        r.command_prompt =
          String.intercalate "\n"
            (cs.enum.map
              (fun p => toString (p.1 + 1) ++ ". " ++ p.2.render))) ∧
    regBAC.command_prompt =
      "1. a(x: int)\n2. b(x: int)\n3. c(x: int)" := by
  constructor
  · intro r hkm hnd
    refine ⟨List.insertionSort cmdNameLe (r.commands.map Prod.snd),
      List.perm_insertionSort _ _, ?_, ?_⟩
    · have hs : List.Sorted cmdNameLe
          (List.insertionSort cmdNameLe (r.commands.map Prod.snd)) :=
        List.sorted_insertionSort _ _
      have hperm : (List.insertionSort cmdNameLe
          (r.commands.map Prod.snd)).Perm (r.commands.map Prod.snd) :=
        List.perm_insertionSort _ _
      have hpm := hperm.map Command.name
      have heq : (r.commands.map Prod.snd).map Command.name =
          r.commands.map Prod.fst := by
        rw [List.map_map]
        refine List.map_congr_left ?_
        intro p hp
        exact (hkm p hp).symm
      rw [heq] at hpm
      have hnames : ((List.insertionSort cmdNameLe
          (r.commands.map Prod.snd)).map Command.name).Nodup :=
        hpm.symm.nodup hnd
      have hne : List.Pairwise
          (fun a b : Command => a.name ≠ b.name)
          (List.insertionSort cmdNameLe (r.commands.map Prod.snd)) :=
        List.pairwise_map.mp hnames
      exact hs.and hne
    · rfl
  · decide

/-- C7 witness: the general listing shape instantiated on the concrete
`"b"`, `"a"`, `"c"` registry. -/
theorem command_prompt_listing_witness :
    KeysMatch regBAC ∧ NodupKeys regBAC ∧
    ∃ cs : List Command,
      cs.Perm (regBAC.commands.map Prod.snd) ∧
      List.Pairwise
        (fun a b : Command =>
          strLe a.name b.name = true ∧ a.name ≠ b.name) cs ∧
      regBAC.command_prompt =
        String.intercalate "\n"
          (cs.enum.map
            (fun p => toString (p.1 + 1) ++ ". " ++ p.2.render)) :=
  ⟨by decide, by decide,
    command_prompt_listing.1 regBAC (by decide) (by decide)⟩

/-! ### Preservation lemmas for register and register folds -/

/-- `register` never shrinks the dict. -/
lemma register_length_le (r : CommandRegistry) (c : Command) :
    r.commands.length ≤ (r.register c).commands.length := by
  unfold CommandRegistry.register
  simp only
  rw [length_insert]
  by_cases h : dictContains r.commands c.name <;> simp [h]

/-- A `register` that kept the size was an in-place update: keys unchanged. -/
lemma register_keys_of_length_eq (r : CommandRegistry) (c : Command)
    (h : (r.register c).commands.length = r.commands.length) :
    (r.register c).commands.map Prod.fst = r.commands.map Prod.fst := by
  unfold CommandRegistry.register at h ⊢
  simp only at h ⊢
  rw [length_insert] at h
  by_cases hc : dictContains r.commands c.name
  · rw [keys_insert]
    simp [hc]
  · rw [if_neg hc] at h
    omega

/-- Registering an already-present name keeps keys and size. -/
lemma register_keys_of_contains (r : CommandRegistry) (c : Command)
    (h : dictContains r.commands c.name = true) :
    (r.register c).commands.map Prod.fst = r.commands.map Prod.fst ∧
    (r.register c).commands.length = r.commands.length := by
  unfold CommandRegistry.register
  constructor
  · rw [keys_insert]
    simp [h]
  · rw [length_insert]
    simp [h]

/-- `register` preserves the key-equals-name invariant. -/
lemma keysMatch_register (r : CommandRegistry) (c : Command)
    (h : KeysMatch r) : KeysMatch (r.register c) := by
  unfold KeysMatch at h ⊢
  intro p hp
  unfold CommandRegistry.register at hp
  simp only at hp
  by_cases hc : dictContains r.commands c.name
  · rw [dictInsert_eq_update _ _ _ hc] at hp
    obtain ⟨q, hq, he⟩ := List.mem_map.mp hp
    by_cases hq1 : q.1 = c.name
    · rw [if_pos hq1] at he
      rw [← he]
    · rw [if_neg hq1] at he
      rw [← he]
      exact h q hq
  · rw [dictInsert_eq_append _ _ _ (by simpa using hc)] at hp
    rcases List.mem_append.mp hp with h2 | h2
    · exact h p h2
    · rw [List.mem_singleton] at h2
      rw [h2]

/-- Membership of a key depends only on the key list. -/
lemma dictContains_congr {d1 d2 : Dict} (n : String)
    (h : d1.map Prod.fst = d2.map Prod.fst) :
    dictContains d1 n = dictContains d2 n := by
  by_cases h1 : dictContains d1 n
  · rw [h1]
    exact (dictContains_iff.mpr (h ▸ dictContains_iff.mp h1)).symm
  · have h1f : dictContains d1 n = false := by simpa using h1
    rw [h1f]
    by_cases h2 : dictContains d2 n
    · exact absurd (dictContains_iff.mpr (h.symm ▸ dictContains_iff.mp h2)) h1
    · simpa using (by simpa using h2 : dictContains d2 n = false).symm

/-- A fold of `register` never shrinks the dict. -/
lemma foldl_register_length_le (cs : List Command) (r : CommandRegistry) :
    r.commands.length ≤
      (cs.foldl (fun acc c => acc.register c) r).commands.length := by
  induction cs generalizing r with
  | nil => simp
  | cons c cs ih =>
      simp only [List.foldl_cons]
      exact le_trans (register_length_le r c) (ih (r.register c))

/-- A size-preserving fold of `register` preserves the key list. -/
lemma foldl_register_keys_of_length_eq (cs : List Command)
    (r : CommandRegistry)
    (h : (cs.foldl (fun acc c => acc.register c) r).commands.length =
      r.commands.length) :
    (cs.foldl (fun acc c => acc.register c) r).commands.map Prod.fst =
      r.commands.map Prod.fst := by
  induction cs generalizing r with
  | nil => rfl
  | cons c cs ih =>
      simp only [List.foldl_cons] at h ⊢
      have h1 : r.commands.length ≤ (r.register c).commands.length :=
        register_length_le r c
      have h2 : (r.register c).commands.length ≤
          (cs.foldl (fun acc c => acc.register c)
            (r.register c)).commands.length :=
        foldl_register_length_le cs (r.register c)
      have h3 : (r.register c).commands.length = r.commands.length := by omega
      have h4 : (cs.foldl (fun acc c => acc.register c)
          (r.register c)).commands.length =
          (r.register c).commands.length := by omega
      rw [ih (r.register c) h4, register_keys_of_length_eq r c h3]

/-- A fold of `register` preserves the key-equals-name invariant. -/
lemma foldl_register_keysMatch (cs : List Command) (r : CommandRegistry)
    (h : KeysMatch r) :
    KeysMatch (cs.foldl (fun acc c => acc.register c) r) := by
  induction cs generalizing r with
  | nil => exact h
  | cons c cs ih =>
      simp only [List.foldl_cons]
      exact ih (r.register c) (keysMatch_register r c h)

/-- Folding `register` over commands whose names are all already present
keeps the key list and the size. -/
lemma foldl_register_keys_of_all_contains (cs : List Command)
    (r : CommandRegistry)
    (h : ∀ c ∈ cs, dictContains r.commands c.name = true) :
    (cs.foldl (fun acc c => acc.register c) r).commands.map Prod.fst =
      r.commands.map Prod.fst ∧
    (cs.foldl (fun acc c => acc.register c) r).commands.length =
      r.commands.length := by
  induction cs generalizing r with
  | nil => exact ⟨rfl, rfl⟩
  | cons c cs ih =>
      simp only [List.foldl_cons]
      have hc : dictContains r.commands c.name = true :=
        h c (List.mem_cons_self c cs)
      obtain ⟨hk, hl⟩ := register_keys_of_contains r c hc
      have h2 : ∀ e ∈ cs, dictContains (r.register c).commands e.name = true := by
        intro e he
        rw [dictContains_congr e.name hk]
        exact h e (List.mem_cons_of_mem c he)
      obtain ⟨hk2, hl2⟩ := ih (r.register c) h2
      exact ⟨by rw [hk2, hk], by rw [hl2, hl]⟩

/-- `applyRegisterEntry` never shrinks the dict. -/
lemma applyRegisterEntry_length_le (m : PyModule) (r : CommandRegistry) :
    r.commands.length ≤ (applyRegisterEntry m r).commands.length := by
  unfold applyRegisterEntry
  cases m.registerEntry with
  | none => exact le_refl _
  | some cs => exact foldl_register_length_le cs r

/-- A size-preserving `applyRegisterEntry` preserves the key list. -/
lemma applyRegisterEntry_keys_of_length_eq (m : PyModule)
    (r : CommandRegistry)
    (h : (applyRegisterEntry m r).commands.length = r.commands.length) :
    (applyRegisterEntry m r).commands.map Prod.fst =
      r.commands.map Prod.fst := by
  unfold applyRegisterEntry at h ⊢
  cases hE : m.registerEntry with
  | none =>
      simp only [hE]
  | some cs =>
      simp only [hE] at h ⊢
      exact foldl_register_keys_of_length_eq cs r h

/-- `applyRegisterEntry` preserves the key-equals-name invariant. -/
lemma applyRegisterEntry_keysMatch (m : PyModule) (r : CommandRegistry)
    (h : KeysMatch r) : KeysMatch (applyRegisterEntry m r) := by
  unfold applyRegisterEntry
  cases m.registerEntry with
  | none => exact h
  | some cs => exact foldl_register_keysMatch cs r h

/-- Names of entry-point commands all present: `applyRegisterEntry` keeps the
key list and the size. -/
lemma applyRegisterEntry_keys_of_all_contains (m : PyModule)
    (r : CommandRegistry)
    (h : ∀ c ∈ m.registerEntry.getD [], dictContains r.commands c.name = true) :
    (applyRegisterEntry m r).commands.map Prod.fst = r.commands.map Prod.fst ∧
    (applyRegisterEntry m r).commands.length = r.commands.length := by
  unfold applyRegisterEntry
  cases hE : m.registerEntry with
  | none => exact ⟨rfl, rfl⟩
  | some cs =>
      simp only [hE, Option.getD] at h
      exact foldl_register_keys_of_all_contains cs r h

/-- What a successful run of the reload loop guarantees: the dict already had
the advertised size, the key list never changed, and the key-equals-name
invariant is preserved. -/
lemma reloadLoop_ok_facts (L : Loader) (origSize : Nat) :
    ∀ (n : Nat) (r : CommandRegistry) (pos : Nat) (r2 : CommandRegistry),
      origSize - pos ≤ n →
      reloadLoop L origSize r pos = Except.ok r2 →
      r.commands.length = origSize ∧
      r2.commands.map Prod.fst = r.commands.map Prod.fst ∧
      (KeysMatch r → KeysMatch r2) := by
  intro n
  induction n with
  | zero =>
      intro r pos r2 hn hok
      rw [reloadLoop.eq_def] at hok
      split_ifs at hok with h1 h2
      · omega
      · have hrr : r = r2 := by injection hok
        subst hrr
        exact ⟨h1, rfl, fun h => h⟩
  | succ n ih =>
      intro r pos r2 hn hok
      rw [reloadLoop.eq_def] at hok
      split_ifs at hok with h1 h2
      · split at hok
        · cases hok
        · split at hok
          · cases hok
          · rename_i m heq m2 heq2
            obtain ⟨hlen2, hkeys2, hkm2⟩ :=
              ih (applyRegisterEntry m2 r) (pos + 1) r2 (by omega) hok
            have hle : r.commands.length ≤
                (applyRegisterEntry m2 r).commands.length :=
              applyRegisterEntry_length_le m2 r
            have hlenEq : (applyRegisterEntry m2 r).commands.length =
                r.commands.length := by omega
            have hkeys1 := applyRegisterEntry_keys_of_length_eq m2 r hlenEq
            refine ⟨h1, by rw [hkeys2, hkeys1], ?_⟩
            intro hkm
            exact hkm2 (applyRegisterEntry_keysMatch m2 r hkm)
      · have hrr : r = r2 := by injection hok
        subst hrr
        exact ⟨h1, rfl, fun h => h⟩

/-- When every module resolves and reloads and every entry-point command
re-registers an already-present name, the reload loop completes. -/
lemma reloadLoop_total (L : Loader) (origSize : Nat) (keys0 : List String)
    (H : ∀ s : String, ∃ m m2, L.resolve s = Except.ok m ∧
        L.reloadModule m = Except.ok m2 ∧
        ∀ c ∈ m2.registerEntry.getD [], c.name ∈ keys0) :
    ∀ (n : Nat) (r : CommandRegistry) (pos : Nat),
      origSize - pos ≤ n →
      r.commands.length = origSize →
      r.commands.map Prod.fst = keys0 →
      ∃ r2, reloadLoop L origSize r pos = Except.ok r2 := by
  intro n
  induction n with
  | zero =>
      intro r pos hn hlen hkeys
      refine ⟨r, ?_⟩
      rw [reloadLoop.eq_def, dif_pos hlen, dif_neg (by omega)]
  | succ n ih =>
      intro r pos hn hlen hkeys
      by_cases hpos : pos < r.commands.length
      · obtain ⟨m, m2, hres, hrel, hnames⟩ :=
          H (r.commands.get ⟨pos, hpos⟩).2.clsModule
        have hall : ∀ c ∈ m2.registerEntry.getD [],
            dictContains r.commands c.name = true := by
          intro c hc
          rw [dictContains_iff, hkeys]
          exact hnames c hc
        obtain ⟨hk, hl⟩ := applyRegisterEntry_keys_of_all_contains m2 r hall
        obtain ⟨r2, hr2⟩ := ih (applyRegisterEntry m2 r) (pos + 1)
          (by omega) (by rw [hl, hlen]) (by rw [hk, hkeys])
        refine ⟨r2, ?_⟩
        rw [reloadLoop.eq_def, dif_pos hlen, dif_pos hpos]
        simp only [hres, hrel]
        exact hr2
      · refine ⟨r, ?_⟩
        rw [reloadLoop.eq_def, dif_pos hlen, dif_neg hpos]

/-! ### C8: the key-equals-name invariant -/

/-- One discovery step preserves the key-equals-name invariant. -/
lemma keysMatch_discoverStep (r : CommandRegistry) (mem : Member)
    (h : KeysMatch r) : KeysMatch (discoverStep r mem) := by
  cases mem with
  | marked flag c =>
      cases flag with
      | true => exact keysMatch_register r c h
      | false => exact h
  | commandClass c => exact keysMatch_register r c h
  | plain => exact h

/-- The discovery fold preserves the key-equals-name invariant. -/
lemma keysMatch_discover_foldl (ms : List (String × Member))
    (r : CommandRegistry) (h : KeysMatch r) :
    KeysMatch (ms.foldl (fun acc p => discoverStep acc p.2) r) := by
  induction ms generalizing r with
  | nil => exact h
  | cons p ms ih =>
      simp only [List.foldl_cons]
      exact ih (discoverStep r p.2) (keysMatch_discoverStep r p.2 h)

/-- `unregister` preserves the key-equals-name invariant. -/
lemma keysMatch_unregister (r : CommandRegistry) (n : String)
    (r2 : CommandRegistry) (h : KeysMatch r)
    (hok : r.unregister n = Except.ok r2) : KeysMatch r2 := by
  unfold CommandRegistry.unregister at hok
  split_ifs at hok with hc
  · have hrr : (⟨dictDelete r.commands n⟩ : CommandRegistry) = r2 := by
      injection hok
    subst hrr
    intro p hp
    exact h p (List.mem_of_mem_filter hp)

/-- `import_commands` preserves the key-equals-name invariant. -/
lemma keysMatch_import (L : Loader) (r : CommandRegistry) (u : String)
    (r2 : CommandRegistry) (h : KeysMatch r)
    (hok : CommandRegistry.import_commands L r u = Except.ok r2) :
    KeysMatch r2 := by
  unfold CommandRegistry.import_commands at hok
  cases hres : L.resolve u with
  | error e =>
      rw [hres] at hok
      cases hok
  | ok m =>
      rw [hres] at hok
      have hrr : (dirSorted m.members).foldl
          (fun acc p => discoverStep acc p.2) r = r2 := by
        injection hok
      subst hrr
      exact keysMatch_discover_foldl (dirSorted m.members) r h

/-- The `for_tools` loop preserves the key-equals-name invariant of the
registry it threads. -/
lemma keysMatch_importList (L : Loader) (names : List String) :
    ∀ r : CommandRegistry, KeysMatch r → KeysMatch (importList L r names).1 := by
  induction names with
  | nil => intro r h; exact h
  | cons n rest ih =>
      intro r h
      unfold importList
      cases heq : r.import_commands L n with
      | ok r2 => exact ih r2 (keysMatch_import L r n r2 h heq)
      | error e => exact h

/-- C8: every key in the mapping equals the `name` of the command it maps
to, and this is preserved by `register`, `unregister`, `import_commands`,
`reload_commands` and `for_tools`; moreover the mapping determines `get`,
`call` and `command_prompt` completely — there is no other state. -/
theorem keys_match_invariant :
    (∀ (r : CommandRegistry) (c : Command),
      KeysMatch r → KeysMatch (r.register c)) ∧
    (∀ (r : CommandRegistry) (n : String) (r2 : CommandRegistry),
      KeysMatch r → r.unregister n = Except.ok r2 → KeysMatch r2) ∧
    (∀ (L : Loader) (r : CommandRegistry) (u : String) (r2 : CommandRegistry),
      KeysMatch r → CommandRegistry.import_commands L r u = Except.ok r2 →
      KeysMatch r2) ∧
    (∀ (L : Loader) (r r2 : CommandRegistry),
      KeysMatch r → CommandRegistry.reload_commands L r = Except.ok r2 →
      KeysMatch r2) ∧
    (∀ (L : Loader) (t : Option (List String)) (r2 : CommandRegistry),
      CommandRegistry.for_tools L t = Except.ok r2 → KeysMatch r2) ∧
    (∀ r1 r2 : CommandRegistry, r1.commands = r2.commands →
      (∀ n, r1.get n = r2.get n) ∧
      (∀ n kwargs, r1.call n kwargs = r2.call n kwargs) ∧
      r1.command_prompt = r2.command_prompt) := by
  refine ⟨keysMatch_register, keysMatch_unregister, keysMatch_import,
    ?_, ?_, ?_⟩
  · intro L r r2 h hok
    unfold CommandRegistry.reload_commands at hok
    exact (reloadLoop_ok_facts L r.commands.length r.commands.length r 0 r2
      (by omega) hok).2.2 h
  · intro L t r2 hok
    unfold CommandRegistry.for_tools at hok
    have h0 : KeysMatch CommandRegistry.empty := by
      intro p hp
      cases hp
    have key : ∀ (names : List String) (r3 : CommandRegistry),
        (match importList L CommandRegistry.empty names with
          | (r, none) => Except.ok r
          | (_, some e) => Except.error e) = Except.ok r3 → KeysMatch r3 := by
      intro names r3 hok2
      cases hres : importList L CommandRegistry.empty names with
      | mk rr oe =>
          rw [hres] at hok2
          cases oe with
          | none =>
              have hrr : rr = r3 := by
                simp only at hok2
                injection hok2
              subst hrr
              have hkm := keysMatch_importList L names CommandRegistry.empty h0
              rw [hres] at hkm
              exact hkm
          | some e =>
              simp only at hok2
              cases hok2
    cases t with
    | none => exact key [] r2 hok
    | some l => exact key l r2 hok
  · intro r1 r2 he
    cases r1 with
    | mk d1 =>
        cases r2 with
        | mk d2 =>
            simp only at he
            subst he
            exact ⟨fun _ => rfl, fun _ _ => rfl, rfl⟩

/-- C8 witness: the invariant holds on the concrete three-command registry
and is kept by registering a fourth command. -/
theorem keys_match_invariant_witness :
    KeysMatch regBAC ∧
    KeysMatch (regBAC.register (Command.make "d" "dd" fIntX none)) :=
  ⟨by decide,
    keys_match_invariant.1 regBAC (Command.make "d" "dd" fIntX none)
      (by decide)⟩

/-! ### C9: for_tools and sequential import -/

/-- The commands discovered in a member list, in discovery order: the
attached command of every truly marked member and the instance of every
strict `Command` subclass. -/
def discoveredList (ms : List (String × Member)) : List Command :=
  ms.filterMap (fun p =>
    match p.2 with
    | Member.marked true c => some c
    | Member.marked false _ => none
    | Member.commandClass c => some c
    | Member.plain => none)

/-- The last command with a given name in a discovery sequence — the one the
overwrite semantics of `register` leaves in the dict. -/
def lastNamed (cs : List Command) (n : String) : Option Command :=
  cs.reverse.find? (fun c => c.name = n)

/-- The discovery fold is the `register` fold over the discovered commands. -/
lemma foldl_discover_eq (ms : List (String × Member)) (r : CommandRegistry) :
    ms.foldl (fun acc p => discoverStep acc p.2) r =
      (discoveredList ms).foldl (fun acc c => acc.register c) r := by
  induction ms generalizing r with
  | nil => rfl
  | cons p ms ih =>
      cases hm : p.2 with
      | marked flag c =>
          cases flag with
          | true =>
              simp only [List.foldl_cons, discoveredList, List.filterMap_cons,
                hm, discoverStep]
              exact ih (r.register c)
          | false =>
              simp only [List.foldl_cons, discoveredList, List.filterMap_cons,
                hm, discoverStep]
              exact ih r
      | commandClass c =>
          simp only [List.foldl_cons, discoveredList, List.filterMap_cons,
            hm, discoverStep]
          exact ih (r.register c)
      | plain =>
          simp only [List.foldl_cons, discoveredList, List.filterMap_cons,
            hm, discoverStep]
          exact ih r

/-- Lookup after a `register` fold: the last command registered under the
name wins; names never registered fall through to the previous dict. -/
lemma lookup_foldl_register (cs : List Command) (r : CommandRegistry)
    (n : String) :
    dictLookup ((cs.foldl (fun acc c => acc.register c) r).commands) n =
      match lastNamed cs n with
      | some c => some c
      | none => dictLookup r.commands n := by
  induction cs generalizing r with
  | nil => rfl
  | cons c cs ih =>
      simp only [List.foldl_cons]
      rw [ih (r.register c)]
      unfold lastNamed
      rw [List.reverse_cons, List.find?_append]
      cases hf : cs.reverse.find? (fun d => d.name = n) with
      | some d => simp [hf]
      | none =>
          simp only [hf, Option.none_or]
          unfold CommandRegistry.register
          simp only
          rw [dictLookup_insert]
          by_cases hn : c.name = n
          · rw [List.find?_cons_of_pos _ (by simp [hn])]
            simp [hn.symm]
          · rw [List.find?_cons_of_neg _ (by simp [hn])]
            simp only [List.find?_nil]
            rw [if_neg (fun he => hn he.symm)]

/-- A successful `import_commands` and what every name maps to afterwards. -/
lemma import_commands_lookup (L : Loader) (r : CommandRegistry) (u : String)
    (m : PyModule) (hres : L.resolve u = Except.ok m) :
    ∃ r2, CommandRegistry.import_commands L r u = Except.ok r2 ∧
      ∀ n, dictLookup r2.commands n =
        match lastNamed (discoveredList (dirSorted m.members)) n with
        | some c => some c
        | none => dictLookup r.commands n := by
  refine ⟨(dirSorted m.members).foldl (fun acc p => discoverStep acc p.2) r,
    ?_, ?_⟩
  · unfold CommandRegistry.import_commands
    rw [hres]
  · intro n
    rw [foldl_discover_eq]
    exact lookup_foldl_register (discoveredList (dirSorted m.members)) r n

/-- Discovery concatenation: the later block is preferred. -/
lemma lastNamed_append (cs1 cs2 : List Command) (n : String) :
    lastNamed (cs1 ++ cs2) n = (lastNamed cs2 n).or (lastNamed cs1 n) := by
  unfold lastNamed
  rw [List.reverse_append, List.find?_append]

/-- C9: `for_tools` treats a null sequence as empty, imports the listed units
in order aborting at the first failure with the prior imports kept and the
rest not attempted, and the resulting mapping sends each name to the last
command of that name discovered across the units in order — later units win
collisions. -/
theorem for_tools_sequential_import :
    (∀ L : Loader,
      CommandRegistry.for_tools L none = Except.ok CommandRegistry.empty) ∧
    (∀ (L : Loader) (r : CommandRegistry) (n : String) (rest : List String)
        (e : PyError),
      CommandRegistry.import_commands L r n = Except.error e →
      importList L r (n :: rest) = (r, some e)) ∧
    (∀ (L : Loader) (a : String) (rest : List String) (e : PyError),
      L.resolve a = Except.error e →
      CommandRegistry.for_tools L (some (a :: rest)) = Except.error e) ∧
    (∀ (L : Loader) (a b : String) (ma mb : PyModule),
      L.resolve a = Except.ok ma → L.resolve b = Except.ok mb →
      ∃ r2, CommandRegistry.for_tools L (some [a, b]) = Except.ok r2 ∧
        ∀ n, dictLookup r2.commands n =
          lastNamed (discoveredList (dirSorted ma.members) ++
            discoveredList (dirSorted mb.members)) n) := by
  refine ⟨fun L => rfl, ?_, ?_, ?_⟩
  · intro L r n rest e himp
    unfold importList
    simp only [himp]
  · intro L a rest e hres
    have h2 : CommandRegistry.import_commands L CommandRegistry.empty a =
        Except.error e := by
      unfold CommandRegistry.import_commands
      rw [hres]
    unfold CommandRegistry.for_tools
    simp only
    unfold importList
    simp only [h2]
  · intro L a b ma mb hresA hresB
    obtain ⟨rA, hA, hAl⟩ := import_commands_lookup L CommandRegistry.empty
      a ma hresA
    obtain ⟨rB, hB, hBl⟩ := import_commands_lookup L rA b mb hresB
    refine ⟨rB, ?_, ?_⟩
    · unfold CommandRegistry.for_tools
      simp only
      unfold importList
      simp only [hA]
      unfold importList
      simp only [hB]
      rfl
    · intro n
      rw [hBl n, lastNamed_append]
      cases h2 : lastNamed (discoveredList (dirSorted mb.members)) n with
      | some c => simp [h2]
      | none =>
          simp only [h2, Option.none_or]
          rw [hAl n]
          cases h3 : lastNamed (discoveredList (dirSorted ma.members)) n with
          | some c => simp [h3]
          | none => simp [h3, dictLookup, CommandRegistry.empty]

/-- The two one-command units used by the C9 witness: both export a command
named `"dup"`. -/
def uaModule : PyModule :=
  ⟨[("x", Member.marked true (Command.make "dup" "from ua" fIntX none))], none⟩

/-- Second unit of the C9 witness. -/
def ubModule : PyModule :=
  ⟨[("y", Member.marked true (Command.make "dup" "from ub" fIntX none))], none⟩

/-- Loader serving the two C9 witness units. -/
def dupLoader : Loader :=
  ⟨fun s =>
    if s = "ua" then Except.ok uaModule
    else if s = "ub" then Except.ok ubModule
    else Except.error (PyError.importError s),
    fun m => Except.ok m⟩

/-- C9 witness: importing two units that both export `"dup"` keeps the
second unit's command. -/
theorem for_tools_sequential_import_witness :
    dupLoader.resolve "ua" = Except.ok uaModule ∧
    dupLoader.resolve "ub" = Except.ok ubModule ∧
    ∃ r2, CommandRegistry.for_tools dupLoader (some ["ua", "ub"]) =
        Except.ok r2 ∧
      ∀ n, dictLookup r2.commands n =
        lastNamed (discoveredList (dirSorted uaModule.members) ++
          discoveredList (dirSorted ubModule.members)) n :=
  ⟨rfl, rfl,
    for_tools_sequential_import.2.2.2 dupLoader "ua" "ub" uaModule ubModule
      rfl rfl⟩

/-! ### C2: derived signatures -/

/-- `def f(x: int, y)` — one typed and one untyped parameter. -/
def fXY : PyFunc :=
  ⟨[⟨"x", PyType.cls "int"⟩, ⟨"y", untypedHint⟩], untypedHint,
    fun _ => Except.ok Value.vNone⟩

/-- C2 counterexample: the untyped parameter renders as `"_empty"` — the
`__name__` of the `inspect._empty` sentinel class — not as `"Any"`, so the
example signature is `"x: int, y: _empty"` and differs from
`"x: int, y: Any"`. -/
theorem signature_untyped_marker_not_any :
    (Command.make "f" "d" fXY none).signature = "x: int, y: _empty" ∧
    (Command.make "f" "d" fXY none).signature ≠ "x: int, y: Any" := by
  constructor
  · decide
  · decide

/-- C2 amended: a command built without an explicit signature renders each
declared parameter in declaration order as `"<name>: <type>"` with the
marker `"_empty"` for an untyped parameter, joined by `", "`; the rendering
never consults the return annotation or the runtime behaviour; the
`x: int, y` example renders `"x: int, y: _empty"`. -/
theorem signature_derivation (nm ds : String) (f : PyFunc) :
    (Command.make nm ds f none).signature =
      String.intercalate ", "
        (f.params.map (fun p =>
          p.name ++ ": " ++
            (if p.hint = untypedHint then "_empty" else p.hint.render))) ∧
    (∀ (t : PyType) (g : Kwargs → Except PyError Value),
      (Command.make nm ds ⟨f.params, t, g⟩ none).signature =
        (Command.make nm ds f none).signature) ∧
    (Command.make "f" "d" fXY none).signature = "x: int, y: _empty" := by
  refine ⟨?_, fun t g => rfl, by decide⟩
  show get_function_signature f = _
  unfold get_function_signature
  refine congrArg (String.intercalate ", ") ?_
  refine List.map_congr_left ?_
  intro p _
  by_cases h : p.hint = untypedHint
  · rw [h, if_pos rfl]
    rfl
  · rw [if_neg h]

/-! ### C3 witness fixtures -/

/-- First command named `"n"`. -/
def cOne : Command := Command.make "n" "one" fIntX none

/-- Second command named `"n"`. -/
def cTwo : Command := Command.make "n" "two" fIntX none

/-- C3 witness: registering `cOne` then `cTwo` under the shared name leaves
one entry, `get` returns `cTwo`, and the state equals registering `cTwo`
alone. -/
theorem register_overwrite_last_wins_witness :
    NodupKeys CommandRegistry.empty ∧ cOne.name = cTwo.name ∧
    ((CommandRegistry.empty.register cOne).register cTwo).commands.countP
        (fun p => p.1 = cTwo.name) = 1 ∧
    ((CommandRegistry.empty.register cOne).register cTwo).get cTwo.name =
      Except.ok cTwo ∧
    (CommandRegistry.empty.register cOne).register cTwo =
      CommandRegistry.empty.register cTwo :=
  ⟨by decide, rfl,
    register_overwrite_last_wins CommandRegistry.empty cOne cTwo
      (by decide) rfl⟩

/-! ### C1: reload and the originating unit -/

/-- `def greet(x: int)` — the implementation inside the plugin unit. -/
def greetFunc : PyFunc :=
  ⟨[⟨"x", PyType.cls "int"⟩], untypedHint,
    fun _ => Except.ok (Value.vStr "hi")⟩

/-- The command the `command` decorator attaches inside unit
`"plugin_greet"`: a base-class `Command` instance, so its `__module__` is
`ixRegistryModule`. -/
def greetCmd : Command := Command.make "greet" "says hi" greetFunc none

/-- The changed command the plugin's `register(registry)` entry point would
install after a real reload of `"plugin_greet"`. -/
def greetCmdNew : Command := Command.make "greet" "says hi v2" greetFunc none

/-- The unit `"plugin_greet"`: one decorated function, plus a top-level
`register(registry)` entry point that installs `greetCmdNew`. -/
def pluginModule : PyModule :=
  ⟨[("greet", command "greet" "says hi" none greetFunc)],
    some [greetCmdNew]⟩

/-- The module `ix.commands.registry` itself, as a loadable module: it
defines no marked members and no top-level `register` function. -/
def registryModuleSelf : PyModule := ⟨[], none⟩

/-- Loader for the C1 scenario. -/
def demoLoader : Loader :=
  ⟨fun s =>
    if s = "plugin_greet" then Except.ok pluginModule
    else if s = ixRegistryModule then Except.ok registryModuleSelf
    else Except.error (PyError.importError s),
    fun m => Except.ok m⟩

/-- The registry populated from `"plugin_greet"`. -/
def rGreet : CommandRegistry := ⟨[("greet", greetCmd)]⟩

/-- C1, evaluated at the failing input: the registry was populated from
`"plugin_greet"` via the decorator, yet the stored command's `__module__`
is `ix.commands.registry`, so `reload_commands` resolves and reloads the
registry's own module — which has no `register` entry point — instead of
`"plugin_greet"`; the plugin's entry point (which would install
`greetCmdNew`) never runs and the stale `greetCmd` stays registered. -/
theorem reload_never_reaches_decorated_unit :
    CommandRegistry.for_tools demoLoader (some ["plugin_greet"]) =
      Except.ok rGreet ∧
    greetCmd.clsModule = ixRegistryModule ∧
    greetCmd.clsModule ≠ "plugin_greet" ∧
    demoLoader.resolve "plugin_greet" = Except.ok pluginModule ∧
    demoLoader.reloadModule pluginModule = Except.ok pluginModule ∧
    pluginModule.registerEntry = some [greetCmdNew] ∧
    CommandRegistry.reload_commands demoLoader rGreet = Except.ok rGreet ∧
    rGreet.get "greet" = Except.ok greetCmd ∧
    greetCmd.description ≠ greetCmdNew.description := by
  refine ⟨rfl, rfl, by decide, rfl, rfl, rfl, ?_, rfl, by decide⟩
  show reloadLoop demoLoader rGreet.commands.length rGreet 0 =
    Except.ok rGreet
  rw [reloadLoop.eq_def, dif_pos rfl, dif_pos (by decide)]
  show reloadLoop demoLoader rGreet.commands.length
    (applyRegisterEntry registryModuleSelf rGreet) 1 = Except.ok rGreet
  show reloadLoop demoLoader rGreet.commands.length rGreet 1 = Except.ok rGreet
  rw [reloadLoop.eq_def, dif_pos rfl, dif_neg (by decide)]

/-! ### C10: mutating the live dict during reload -/

/-- The implementation behind the C10 subclass command. -/
def growFunc : PyFunc := ⟨[], untypedHint, fun _ => Except.ok Value.vNone⟩

/-- A `Command` subclass instance defined in unit `"plugin_grow"` — its
class's `__module__` is the plugin, so reload does reach the plugin. -/
def growCmd : Command := ⟨"grow", "grows the dict", growFunc, "", "plugin_grow"⟩

/-- The fresh command the plugin's `register` entry point adds under a name
not yet in the registry. -/
def growNew : Command := Command.make "extra" "sneaks in" growFunc none

/-- The unit `"plugin_grow"`: a `Command` subclass plus a `register` entry
point that registers a command under the fresh name `"extra"`. -/
def growModule : PyModule :=
  ⟨[("GrowCmd", Member.commandClass growCmd)], some [growNew]⟩

/-- Loader for the C10 failing scenario. -/
def growLoader : Loader :=
  ⟨fun s =>
    if s = "plugin_grow" then Except.ok growModule
    else Except.error (PyError.importError s),
    fun m => Except.ok m⟩

/-- Registry holding the one subclass command. -/
def rGrow : CommandRegistry := ⟨[("grow", growCmd)]⟩

/-- A loader whose reloads always succeed and register nothing. -/
def totalLoader : Loader :=
  ⟨fun _ => Except.ok ⟨[], none⟩, fun m => Except.ok m⟩

/-- C10: a completed `reload_commands` leaves the key list untouched, so an
entry point can only have re-registered already-present names; when every
unit resolves, reloads, and re-registers only present names the reload
completes; and on the concrete registry whose unit registers the fresh name
`"extra"` mid-iteration, `reload_commands` fails with the dictionary-size
`RuntimeError` instead of completing. -/
theorem reload_live_dict_growth_error :
    (∀ (L : Loader) (r r2 : CommandRegistry),
      CommandRegistry.reload_commands L r = Except.ok r2 →
      r2.commands.map Prod.fst = r.commands.map Prod.fst) ∧
    (∀ (L : Loader) (r : CommandRegistry),
      (∀ s : String, ∃ m m2, L.resolve s = Except.ok m ∧
        L.reloadModule m = Except.ok m2 ∧
        ∀ c ∈ m2.registerEntry.getD [],
          c.name ∈ r.commands.map Prod.fst) →
      ∃ r2, CommandRegistry.reload_commands L r = Except.ok r2) ∧
    CommandRegistry.reload_commands growLoader rGrow =
      Except.error
        (PyError.runtimeError "dictionary changed size during iteration") := by
  refine ⟨?_, ?_, ?_⟩
  · intro L r r2 hok
    unfold CommandRegistry.reload_commands at hok
    exact (reloadLoop_ok_facts L r.commands.length r.commands.length r 0 r2
      (by omega) hok).2.1
  · intro L r H
    unfold CommandRegistry.reload_commands
    exact reloadLoop_total L r.commands.length (r.commands.map Prod.fst) H
      r.commands.length r 0 (by omega) rfl rfl
  · show reloadLoop growLoader rGrow.commands.length rGrow 0 =
      Except.error
        (PyError.runtimeError "dictionary changed size during iteration")
    rw [reloadLoop.eq_def, dif_pos rfl, dif_pos (by decide)]
    show reloadLoop growLoader rGrow.commands.length
      ⟨[("grow", growCmd), ("extra", growNew)]⟩ 1 =
      Except.error
        (PyError.runtimeError "dictionary changed size during iteration")
    rw [reloadLoop.eq_def, dif_neg (by decide)]

/-- C10 witness: with a loader whose reloads register nothing, the safety
half completes the reload on the concrete registry. -/
theorem reload_live_dict_growth_error_witness :
    ∃ r2, CommandRegistry.reload_commands totalLoader rGrow = Except.ok r2 :=
  reload_live_dict_growth_error.2.1 totalLoader rGrow
    (fun _ => ⟨⟨[], none⟩, ⟨[], none⟩, rfl, rfl,
      fun c hc => absurd hc (List.not_mem_nil c)⟩)

end IxRegistry
